import Mathlib

/-!
Verification of the AutoNAT-v2 server core (p2p/protocol/autonatv2/server.go)
against its natural-language specification.

The Go code is shallowly embedded: time is modelled in seconds as `Int`
(`time.Minute` becomes the constant 60), peer identifiers as `Nat`, the Go
map `peerReqs` as an association list with Go-map semantics for lookup,
insert and delete, and every effectful external call of the request handler
(stream reads and writes, dialability checks, the dial back) as an input of
an explicit environment record, with the handler returning the list of
observable events it performs.
-/

set_option autoImplicit false

namespace Autonatv2

/-- Duration of one minute, in seconds, standing for Go `time.Minute`. -/
def minuteDur : Int := 60

/-- Modelled from the spec: `maxPeerAddresses` is declared outside the given
source file; the spec fixes it as MAX_PEER_ADDRESSES = 50. -/
def maxPeerAddresses : Nat := 50

/-- Modelled from the spec: `minHandshakeSizeBytes` is declared outside the
given source file; the spec only requires MIN_HANDSHAKE_BYTES to be a lower
bound for the random dial-data size, strictly below MAX_HANDSHAKE_BYTES. -/
def minHandshakeSizeBytes : Nat := 30000

/-- Modelled from the spec: `maxHandshakeSizeBytes` is declared outside the
given source file; the spec only requires MAX_HANDSHAKE_BYTES to be a strict
upper bound for the random dial-data size. -/
def maxHandshakeSizeBytes : Nat := 100000

abbrev PeerID := Nat

/-! ## Multiaddresses and the dial-data request policy (server.go:401-410)

A multiaddress is abstracted by the one observation the policy makes of it:
the result of `manet.ToIP`, which either yields an IP (modelled as a `Nat`)
or fails (`none`). `net.IP.Equal` on a nil IP (Go: the ignored error case of
the second `ToIP` call) is false. -/

structure Multiaddr where
  ip : Option Nat
deriving DecidableEq

/-- Result of Go `manet.ToIP`: `none` models a conversion error. -/
def manetToIP (a : Multiaddr) : Option Nat :=
  a.ip

/-- Go `connIP.Equal(dialIP)` where `dialIP` may be nil (conversion error
ignored by the source): a nil argument compares unequal. -/
def ipEqual (a : Nat) (b : Option Nat) : Bool :=
  match b with
  | some x => a == x
  | none => false

structure NetConn where
  remoteMultiaddr : Multiaddr
  localMultiaddr : Multiaddr
deriving DecidableEq

structure NetStream where
  conn : NetConn
deriving DecidableEq

/-- Embedding of `amplificationAttackPrevention` (server.go:403-410).
Note that the source compares the observed remote IP with the IP of the
inbound connection's local multiaddress; the `dialAddr` parameter is unused. -/
def amplificationAttackPrevention (s : NetStream) (dialAddr : Multiaddr) : Bool :=
  match manetToIP s.conn.remoteMultiaddr with
  | none => true
  | some connIP => !(ipEqual connIP (manetToIP s.conn.localMultiaddr))

/-- The default policy as the spec words it: require dial data iff the IP of
the observed remote endpoint of the inbound connection differs from the IP of
the address about to be dialed, and require it whenever the remote
multiaddress cannot be reduced to an IP. -/
def amplificationAttackPreventionSpec (s : NetStream) (dialAddr : Multiaddr) : Bool :=
  match manetToIP s.conn.remoteMultiaddr with
  | none => true
  | some connIP => !(ipEqual connIP (manetToIP dialAddr))

/-! ## Rate limiter (server.go:291-399) -/

structure Entry where
  peerID : PeerID
  time : Int
deriving DecidableEq

/-- The Go map `peerReqs`, modelled as an association list. -/
abbrev PRMap := List (PeerID × List Int)

def lookupPR (m : PRMap) (p : PeerID) : List Int :=
  match m.find? (fun kv => kv.1 == p) with
  | some kv => kv.2
  | none => []

def containsPR (m : PRMap) (p : PeerID) : Bool :=
  (m.find? (fun kv => kv.1 == p)).isSome

/-- Go `delete(m, p)`. -/
def erasePR (m : PRMap) (p : PeerID) : PRMap :=
  m.filter (fun kv => kv.1 != p)

/-- Go `m[p] = l`: the stored association for `p` becomes `l`. -/
def setPR (m : PRMap) (p : PeerID) (l : List Int) : PRMap :=
  (p, l) :: erasePR m p

/-- State of `rateLimiter` (server.go:293-311). The quotas are Go ints. -/
structure RL where
  RPM : Int
  PerPeerRPM : Int
  DialDataRPM : Int
  reqs : List Entry
  peerReqs : PRMap
  dialDataReqs : List Int
  ongoingReqs : List PeerID
deriving DecidableEq

/-- Entries younger than one minute are kept by `cleanup`. -/
def youngB (now t : Int) : Bool :=
  decide (now - t < minuteDur)

/-- Inner pruning scan of `cleanup` (server.go:366-372 and 384-390): the
log keeps its suffix starting at the first entry younger than one minute. -/
def pruneLog (now : Int) : List Int → List Int
  | [] => []
  | t :: ts => if now - t < minuteDur then t :: ts else pruneLog now ts

/-- Per-peer update performed for each expired global entry
(server.go:366-376): prune the peer's sublog and delete its map entry when
the pruned sublog is empty. -/
def pruneMapAt (now : Int) (m : PRMap) (q : PeerID) : PRMap :=
  let l := pruneLog now (lookupPR m q)
  if l.isEmpty then erasePR m q else setPR m q l

/-- Outer loop of `cleanup` (server.go:363-382): scan the global log until
the first young entry, pruning the sublog of each expired entry's peer and
deleting the peer's map entry when its sublog empties; the global log keeps
the remaining suffix. -/
def cleanupLoop (now : Int) : List Entry → PRMap → List Entry × PRMap
  | [], m => ([], m)
  | e :: es, m =>
    if minuteDur ≤ now - e.time then cleanupLoop now es (pruneMapAt now m e.peerID)
    else (e :: es, m)

/-- Embedding of `rateLimiter.cleanup` (server.go:362-392). -/
def cleanup (now : Int) (r : RL) : RL :=
  let gm := cleanupLoop now r.reqs r.peerReqs
  { r with reqs := gm.1, peerReqs := gm.2,
           dialDataReqs := pruneLog now r.dialDataReqs }

/-- Embedding of `rateLimiter.Accept` (server.go:318-340); the boolean result
is paired with the mutated state. -/
def Accept (now : Int) (r : RL) (p : PeerID) : Bool × RL :=
  let rc := cleanup now r
  if rc.ongoingReqs.contains p then (false, rc)
  else if rc.RPM ≤ (rc.reqs.length : Int) ∨
      rc.PerPeerRPM ≤ ((lookupPR rc.peerReqs p).length : Int) then (false, rc)
  else
    (true, { rc with
      ongoingReqs := p :: rc.ongoingReqs,
      reqs := rc.reqs ++ [Entry.mk p now],
      peerReqs := setPR rc.peerReqs p (lookupPR rc.peerReqs p ++ [now]) })

/-- Embedding of `rateLimiter.AcceptDialDataRequest` (server.go:342-356). -/
def AcceptDialDataRequest (now : Int) (r : RL) (_p : PeerID) : Bool × RL :=
  let rc := cleanup now r
  if rc.DialDataRPM ≤ (rc.dialDataReqs.length : Int) then (false, rc)
  else (true, { rc with dialDataReqs := rc.dialDataReqs ++ [now] })

/-- Embedding of `rateLimiter.CompleteRequest` (server.go:394-399). -/
def CompleteRequest (r : RL) (p : PeerID) : RL :=
  { r with ongoingReqs := r.ongoingReqs.filter (fun q => q != p) }

/-- The `Accept` procedure as the claim words it: cleanup first, then the
in-flight check, then the global quota, then the per-peer quota, each
returning false without inserting anything; otherwise insert into the global
log, the per-peer log and the in-flight set with the current timestamp. -/
def acceptSpec (now : Int) (r : RL) (p : PeerID) : Bool × RL :=
  let rc := cleanup now r
  if rc.ongoingReqs.contains p then (false, rc)
  else if rc.RPM ≤ (rc.reqs.length : Int) then (false, rc)
  else if rc.PerPeerRPM ≤ ((lookupPR rc.peerReqs p).length : Int) then (false, rc)
  else
    (true, { rc with
      ongoingReqs := p :: rc.ongoingReqs,
      reqs := rc.reqs ++ [Entry.mk p now],
      peerReqs := setPR rc.peerReqs p (lookupPR rc.peerReqs p ++ [now]) })

/-! ## Dial back (server.go:248-289)

Each fallible external call of `dialBack` is an input of `DialBackEnv`; the
function returns the events it performs together with the `pb.DialStatus`
result. The result of the final 1-byte confirmation read is an input too and
is ignored, exactly as `s.Read(b)` is in the source. -/

inductive DialStatus
  | unused
  | eDialError
  | eDialBackError
  | ok
deriving DecidableEq

structure DialBackEnv where
  connectErr : Bool
  newStreamErr : Bool
  writeNonceErr : Bool
  readByteOk : Bool
deriving DecidableEq

inductive DBEvent
  | addAddr
  | connectAttempt
  | newStreamAttempt
  | writeNonce (nonce : Nat)
  | resetStream
  | closeWrite
  | readByte
deriving DecidableEq

/-- Embedding of `server.dialBack` (server.go:248-289). -/
def dialBack (env : DialBackEnv) (nonce : Nat) : List DBEvent × DialStatus :=
  if env.connectErr then
    ([.addAddr, .connectAttempt], .eDialError)
  else if env.newStreamErr then
    ([.addAddr, .connectAttempt, .newStreamAttempt], .eDialBackError)
  else if env.writeNonceErr then
    ([.addAddr, .connectAttempt, .newStreamAttempt, .writeNonce nonce, .resetStream],
      .eDialBackError)
  else
    ([.addAddr, .connectAttempt, .newStreamAttempt, .writeNonce nonce, .closeWrite, .readByte],
      .ok)

/-! ## Dial-data exchange (server.go:218-246) -/

/-- One inbound read during the dial-data exchange: the read fails, or the
message is not a `DialDataResponse`, or it is one carrying `n` payload bytes. -/
inductive DataMsg
  | readFailure
  | wrongType
  | chunk (n : Nat)
deriving DecidableEq

inductive DialDataOutcome
  | success
  | writeFailureOut
  | readFailureOut
  | invalidType
  | chunkTooSmall
deriving DecidableEq

inductive RespStatus
  | okResp
  | eDialRefused
  | eRequestRejected
deriving DecidableEq

inductive WireMsg
  | dialResponse (st : RespStatus) (ds : DialStatus) (addrIdx : Nat)
  | dialDataRequest (addrIdx : Nat) (numBytes : Nat)
deriving DecidableEq

/-- Observable actions of the request handler on its stream and hosts. -/
inductive Event
  | acceptCall (ok : Bool)
  | acceptDialDataCall (ok : Bool)
  | completeRequestCall
  | write (m : WireMsg)
  | readData (m : DataMsg)
  | dialBackTo (idx : Nat) (status : DialStatus)
  | reset
deriving DecidableEq

/-- Read loop of `getDialData` (server.go:232-244): `remain` is the Go `int`
remainder, messages are consumed until `remain ≤ 0`; a short chunk while more
bytes remain, a wrong message type, or a failed read abort the loop. -/
def dialDataLoop (remain : Int) : List DataMsg → List Event × DialDataOutcome
  | [] =>
    if remain ≤ 0 then ([], .success) else ([], .readFailureOut)
  | .readFailure :: _ =>
    if remain ≤ 0 then ([], .success) else ([.readData .readFailure], .readFailureOut)
  | .wrongType :: _ =>
    if remain ≤ 0 then ([], .success) else ([.readData .wrongType], .invalidType)
  | .chunk n :: ms =>
    if remain ≤ 0 then ([], .success)
    else if n < 100 ∧ 0 < remain - (n : Int) then
      ([.readData (.chunk n)], .chunkTooSmall)
    else
      (.readData (.chunk n) :: (dialDataLoop (remain - (n : Int)) ms).1,
        (dialDataLoop (remain - (n : Int)) ms).2)

/-- The random dial-data demand of server.go:220: `minHandshakeSizeBytes +
rand.Intn(maxHandshakeSizeBytes - minHandshakeSizeBytes)`, with the result of
`rand.Intn` modelled as `randVal %` its argument. -/
def ddNumBytes (randVal : Nat) : Nat :=
  minHandshakeSizeBytes + randVal % (maxHandshakeSizeBytes - minHandshakeSizeBytes)

/-- Embedding of `getDialData` (server.go:219-246): write the
`DialDataRequest` (whose write may fail), then run the read loop. -/
def getDialData (randVal addrIdx : Nat) (writeErr : Bool) (msgs : List DataMsg) :
    List Event × DialDataOutcome :=
  let numBytes := ddNumBytes randVal
  if writeErr then
    ([.write (.dialDataRequest addrIdx numBytes)], .writeFailureOut)
  else
    let rest := dialDataLoop (numBytes : Int) msgs
    (.write (.dialDataRequest addrIdx numBytes) :: rest.1, rest.2)

/-! ## Address selection and the request handler (server.go:74-216) -/

/-- One candidate address of the request, abstracted by the observations the
selection loop makes of it: whether `ma.NewMultiaddrBytes` succeeds, whether
`manet.IsPublicAddr` holds, whether it has a `P_CIRCUIT` component, and the
two `CanDial` verdicts. -/
structure AddrInfo where
  parses : Bool
  isPublic : Bool
  hasCircuit : Bool
  dialerCanDial : Bool
  hostCanDial : Bool
deriving DecidableEq

/-- The first message read from the stream: a `DialRequest`, or a message of
any other type (`msg.GetDialRequest() == nil`). -/
inductive InMsg
  | dialRequest (nonce : Nat) (addrs : List AddrInfo)
  | invalid
deriving DecidableEq

/-- Address selection loop of `handleDialRequest` (server.go:130-156):
starting at position `i`, return the index of the first address that parses,
is public (unless private addresses are allowed), has no circuit component
and is dialable by both hosts; stop at `maxPeerAddresses`. -/
def selectDialAddr (allowPrivate : Bool) : Nat → List AddrInfo → Option Nat
  | _, [] => none
  | i, a :: rest =>
    if maxPeerAddresses ≤ i then none
    else if !a.parses then selectDialAddr allowPrivate (i + 1) rest
    else if !allowPrivate && !a.isPublic then selectDialAddr allowPrivate (i + 1) rest
    else if a.hasCircuit then selectDialAddr allowPrivate (i + 1) rest
    else if !a.dialerCanDial then selectDialAddr allowPrivate (i + 1) rest
    else if !a.hostCanDial then selectDialAddr allowPrivate (i + 1) rest
    else some i

/-- A candidate address that the selection loop does not skip. -/
def survives (allowPrivate : Bool) (a : AddrInfo) : Bool :=
  a.parses && (allowPrivate || a.isPublic) && !a.hasCircuit &&
    a.dialerCanDial && a.hostCanDial

/-- Environment of one `handleDialRequest` execution: outcomes of every
external call, in source order. -/
structure HandlerEnv where
  setServiceErr : Bool
  reserveErr : Bool
  acceptOk : Bool
  rejWriteErr : Bool
  readReq : Option InMsg
  refusedWriteErr : Bool
  policyRequiresData : Bool
  acceptDDOk : Bool
  rejWriteErr2 : Bool
  randVal : Nat
  ddReqWriteErr : Bool
  dataMsgs : List DataMsg
  dbEnv : DialBackEnv
  finalWriteErr : Bool
deriving DecidableEq

def rejectedResp : WireMsg :=
  .dialResponse .eRequestRejected .unused 0

def refusedResp : WireMsg :=
  .dialResponse .eDialRefused .unused 0

/-- Dial back and final response (server.go:201-215). -/
def dialAndRespond (env : HandlerEnv) (nonce idx : Nat) : List Event :=
  .dialBackTo idx (dialBack env.dbEnv nonce).2 ::
  .write (.dialResponse .okResp (dialBack env.dbEnv nonce).2 idx) ::
  (if env.finalWriteErr then [.reset] else [])

/-- Part of `handleDialRequest` after admission was granted
(server.go:114-215): read and validate the request, select an address, take
the dial-data decision and quota, optionally run the dial-data exchange, dial
back and respond. -/
def handleAfterAccept (allowPrivate : Bool) (env : HandlerEnv) : List Event :=
  match env.readReq with
  | none => [.reset]
  | some .invalid => [.reset]
  | some (.dialRequest nonce addrs) =>
    match selectDialAddr allowPrivate 0 addrs with
    | none => .write refusedResp :: (if env.refusedWriteErr then [.reset] else [])
    | some idx =>
      if !env.acceptDDOk then
        .acceptDialDataCall false ::
          .write rejectedResp :: (if env.rejWriteErr2 then [.reset] else [])
      else
        .acceptDialDataCall true ::
        (if env.policyRequiresData then
          let g := getDialData env.randVal idx env.ddReqWriteErr env.dataMsgs
          if g.2 = .success then g.1 ++ dialAndRespond env nonce idx
          else g.1 ++ [.reset]
        else dialAndRespond env nonce idx)

/-- Embedding of `server.handleDialRequest` (server.go:74-216): the deferred
`CompleteRequest` runs on every exit path past admission. -/
def handleDialRequest (allowPrivate : Bool) (env : HandlerEnv) : List Event :=
  if env.setServiceErr then [.reset]
  else if env.reserveErr then [.reset]
  else if !env.acceptOk then
    [.acceptCall false, .write rejectedResp] ++
      (if env.rejWriteErr then [.reset] else [])
  else
    .acceptCall true :: (handleAfterAccept allowPrivate env ++ [.completeRequestCall])

/-- Messages written to the inbound stream during a handler run. -/
def writesOf (tr : List Event) : List WireMsg :=
  tr.filterMap (fun e => match e with | .write m => some m | _ => none)

def isResp : WireMsg → Bool
  | .dialResponse _ _ _ => true
  | _ => false

def isDDReq : WireMsg → Bool
  | .dialDataRequest _ _ => true
  | _ => false

/-- Total payload bytes carried by the dial-data chunks read in a trace. -/
def bytesRead (tr : List Event) : Nat :=
  (tr.filterMap (fun e => match e with | .readData (.chunk n) => some n | _ => none)).sum

/-! ## Lemmas about the association-list model of the peer-request map -/

lemma find?_erasePR_ne (m : PRMap) (p q : PeerID) (h : q ≠ p) :
    (erasePR m p).find? (fun kv => kv.1 == q) = m.find? (fun kv => kv.1 == q) := by
  induction m with
  | nil => rfl
  | cons kv m ih =>
    unfold erasePR at *
    by_cases hp : kv.1 = p
    · rw [List.filter_cons_of_neg (by simp [hp]),
        List.find?_cons_of_neg _ (by simp [hp]; exact Ne.symm h)]
      exact ih
    · rw [List.filter_cons_of_pos (by simp [hp])]
      by_cases hq : kv.1 = q
      · rw [List.find?_cons_of_pos _ (by simp [hq]), List.find?_cons_of_pos _ (by simp [hq])]
      · rw [List.find?_cons_of_neg _ (by simp [hq]), List.find?_cons_of_neg _ (by simp [hq])]
        exact ih

lemma lookupPR_erasePR_self (m : PRMap) (p : PeerID) :
    lookupPR (erasePR m p) p = [] := by
  unfold lookupPR
  rw [List.find?_eq_none.mpr]
  intro kv hkv
  have := (List.mem_filter.mp hkv).2
  simp at this ⊢
  exact this

lemma containsPR_erasePR_self (m : PRMap) (p : PeerID) :
    containsPR (erasePR m p) p = false := by
  unfold containsPR
  rw [List.find?_eq_none.mpr]
  · rfl
  intro kv hkv
  have := (List.mem_filter.mp hkv).2
  simp at this ⊢
  exact this

lemma lookupPR_erasePR_ne (m : PRMap) (p q : PeerID) (h : q ≠ p) :
    lookupPR (erasePR m p) q = lookupPR m q := by
  unfold lookupPR
  rw [find?_erasePR_ne m p q h]

lemma containsPR_erasePR_ne (m : PRMap) (p q : PeerID) (h : q ≠ p) :
    containsPR (erasePR m p) q = containsPR m q := by
  unfold containsPR
  rw [find?_erasePR_ne m p q h]

lemma lookupPR_setPR_self (m : PRMap) (p : PeerID) (l : List Int) :
    lookupPR (setPR m p l) p = l := by
  unfold lookupPR setPR
  rw [List.find?_cons_of_pos _ (by simp)]

lemma containsPR_setPR_self (m : PRMap) (p : PeerID) (l : List Int) :
    containsPR (setPR m p l) p = true := by
  unfold containsPR setPR
  rw [List.find?_cons_of_pos _ (by simp)]
  rfl

lemma lookupPR_setPR_ne (m : PRMap) (p q : PeerID) (l : List Int) (h : q ≠ p) :
    lookupPR (setPR m p l) q = lookupPR m q := by
  unfold lookupPR setPR
  rw [List.find?_cons_of_neg _ (by simp; exact Ne.symm h), find?_erasePR_ne m p q h]

lemma containsPR_setPR_ne (m : PRMap) (p q : PeerID) (l : List Int) (h : q ≠ p) :
    containsPR (setPR m p l) q = containsPR m q := by
  unfold containsPR setPR
  rw [List.find?_cons_of_neg _ (by simp; exact Ne.symm h), find?_erasePR_ne m p q h]

/-! ## Lemmas about the pruning scan -/

lemma filter_idem {α : Type} (p : α → Bool) (l : List α) :
    (l.filter p).filter p = l.filter p :=
  List.filter_eq_self.mpr (fun a ha => (List.mem_filter.mp ha).2)

lemma pruneLog_eq_filter (now : Int) (l : List Int) (h : l.Pairwise (· ≤ ·)) :
    pruneLog now l = l.filter (youngB now) := by
  induction l with
  | nil => rfl
  | cons t ts ih =>
    rw [List.pairwise_cons] at h
    by_cases ht : now - t < minuteDur
    · rw [pruneLog, if_pos ht, List.filter_cons_of_pos (by simp [youngB, ht])]
      have : ts.filter (youngB now) = ts := by
        rw [List.filter_eq_self]
        intro a ha
        have := h.1 a ha
        simp only [youngB, decide_eq_true_eq]
        omega
      rw [this]
    · rw [pruneLog, if_neg ht, List.filter_cons_of_neg (by simp [youngB, ht]), ih h.2]

lemma filter_youngB_pruneLog (now : Int) (l : List Int) :
    (pruneLog now l).filter (youngB now) = l.filter (youngB now) := by
  induction l with
  | nil => rfl
  | cons t ts ih =>
    by_cases ht : now - t < minuteDur
    · rw [pruneLog, if_pos ht]
    · rw [pruneLog, if_neg ht, List.filter_cons_of_neg (by simp [youngB, ht]), ih]

lemma pruneLog_mem (now : Int) (l : List Int) (a : Int) (ha : a ∈ pruneLog now l) :
    a ∈ l := by
  induction l with
  | nil => exact absurd ha (by rw [pruneLog] at ha ⊢; exact List.not_mem_nil a)
  | cons t ts ih =>
    rw [pruneLog] at ha
    by_cases ht : now - t < minuteDur
    · rw [if_pos ht] at ha; exact ha
    · rw [if_neg ht] at ha; exact List.mem_cons_of_mem _ (ih ha)

lemma pruneLog_pairwise (now : Int) (l : List Int) (h : l.Pairwise (· ≤ ·)) :
    (pruneLog now l).Pairwise (· ≤ ·) := by
  induction l with
  | nil => exact h
  | cons t ts ih =>
    rw [List.pairwise_cons] at h
    by_cases ht : now - t < minuteDur
    · rw [pruneLog, if_pos ht, List.pairwise_cons]; exact ⟨h.1, h.2⟩
    · rw [pruneLog, if_neg ht]; exact ih h.2

/-! ## Exactness of the cleanup scan -/

/-- Peer `p` owns an entry of the global log segment `es` that is at least
one minute old at `now`. -/
def hasExpired (now : Int) (es : List Entry) (p : PeerID) : Prop :=
  ∃ e ∈ es, e.peerID = p ∧ minuteDur ≤ now - e.time

lemma lookupPR_pruneMapAt_self (now : Int) (m : PRMap) (q : PeerID)
    (hq : (lookupPR m q).Pairwise (· ≤ ·)) :
    lookupPR (pruneMapAt now m q) q = (lookupPR m q).filter (youngB now) := by
  unfold pruneMapAt
  rw [pruneLog_eq_filter now _ hq]
  by_cases hemp : ((lookupPR m q).filter (youngB now)).isEmpty
  · rw [if_pos hemp, lookupPR_erasePR_self]
    exact (List.isEmpty_iff.mp hemp).symm
  · rw [if_neg hemp, lookupPR_setPR_self]

lemma containsPR_pruneMapAt_self (now : Int) (m : PRMap) (q : PeerID)
    (hq : (lookupPR m q).Pairwise (· ≤ ·)) :
    containsPR (pruneMapAt now m q) q
      = !((lookupPR m q).filter (youngB now)).isEmpty := by
  unfold pruneMapAt
  rw [pruneLog_eq_filter now _ hq]
  by_cases hemp : ((lookupPR m q).filter (youngB now)).isEmpty
  · rw [if_pos hemp, containsPR_erasePR_self]
    simp [hemp]
  · rw [if_neg hemp, containsPR_setPR_self]
    rw [Bool.not_eq_true] at hemp
    rw [hemp]
    rfl

lemma lookupPR_pruneMapAt_ne (now : Int) (m : PRMap) (p q : PeerID) (h : p ≠ q) :
    lookupPR (pruneMapAt now m q) p = lookupPR m p := by
  unfold pruneMapAt
  by_cases hemp : (pruneLog now (lookupPR m q)).isEmpty
  · rw [if_pos hemp, lookupPR_erasePR_ne m q p h]
  · rw [if_neg hemp, lookupPR_setPR_ne m q p _ h]

lemma containsPR_pruneMapAt_ne (now : Int) (m : PRMap) (p q : PeerID) (h : p ≠ q) :
    containsPR (pruneMapAt now m q) p = containsPR m p := by
  unfold pruneMapAt
  by_cases hemp : (pruneLog now (lookupPR m q)).isEmpty
  · rw [if_pos hemp, containsPR_erasePR_ne m q p h]
  · rw [if_neg hemp, containsPR_setPR_ne m q p _ h]

lemma pruneMapAt_pairwise (now : Int) (m : PRMap) (q : PeerID)
    (hm : ∀ p, (lookupPR m p).Pairwise (· ≤ ·)) :
    ∀ p, (lookupPR (pruneMapAt now m q) p).Pairwise (· ≤ ·) := by
  intro p
  by_cases hpq : p = q
  · subst hpq
    rw [lookupPR_pruneMapAt_self now m p (hm p)]
    exact (hm p).sublist (List.filter_sublist _)
  · rw [lookupPR_pruneMapAt_ne now m p q hpq]
    exact hm p

/-- Exactness of the outer cleanup scan: the surviving global log is the
young part; every peer owning an expired global entry has its sublog filtered
to its young part, its key kept exactly when that part is non-empty; the map
is untouched at every other peer. -/
lemma cleanupLoop_exact (now : Int) (es : List Entry) :
    ∀ (m : PRMap),
    es.Pairwise (fun a b => a.time ≤ b.time) →
    (∀ p, (lookupPR m p).Pairwise (· ≤ ·)) →
    (cleanupLoop now es m).1 = es.filter (fun e => youngB now e.time) ∧
    (∀ p, hasExpired now es p →
      lookupPR (cleanupLoop now es m).2 p = (lookupPR m p).filter (youngB now) ∧
      containsPR (cleanupLoop now es m).2 p
        = !((lookupPR m p).filter (youngB now)).isEmpty) ∧
    (∀ p, ¬hasExpired now es p →
      lookupPR (cleanupLoop now es m).2 p = lookupPR m p ∧
      containsPR (cleanupLoop now es m).2 p = containsPR m p) := by
  induction es with
  | nil =>
    intro m _ _
    refine ⟨rfl, ?_, ?_⟩
    · intro p hp
      exact absurd hp (by simp [hasExpired])
    · intro p _
      exact ⟨rfl, rfl⟩
  | cons e es ih =>
    intro m hpw hm
    rw [List.pairwise_cons] at hpw
    by_cases he : minuteDur ≤ now - e.time
    · have hred : cleanupLoop now (e :: es) m
          = cleanupLoop now es (pruneMapAt now m e.peerID) := by
        rw [cleanupLoop, if_pos he]
      obtain ⟨ihG, ihE, ihN⟩ :=
        ih (pruneMapAt now m e.peerID) hpw.2 (pruneMapAt_pairwise now m e.peerID hm)
      rw [hred]
      refine ⟨?_, ?_, ?_⟩
      · rw [ihG, List.filter_cons_of_neg (by simp [youngB]; omega)]
      · intro p _
        by_cases hpe : hasExpired now es p
        · obtain ⟨h1, h2⟩ := ihE p hpe
          by_cases hpq : p = e.peerID
          · subst hpq
            refine ⟨?_, ?_⟩
            · rw [h1, lookupPR_pruneMapAt_self now m _ (hm _), filter_idem]
            · rw [h2, lookupPR_pruneMapAt_self now m _ (hm _), filter_idem]
          · rw [h1, h2, lookupPR_pruneMapAt_ne now m p e.peerID hpq]
            exact ⟨rfl, rfl⟩
        · obtain ⟨h1, h2⟩ := ihN p hpe
          rename_i hp
          have hpq : p = e.peerID := by
            rcases hp with ⟨e', he', hpid, hexp⟩
            rcases List.mem_cons.mp he' with heq | hmem
            · rw [← hpid, heq]
            · exact absurd ⟨e', hmem, hpid, hexp⟩ hpe
          subst hpq
          refine ⟨?_, ?_⟩
          · rw [h1, lookupPR_pruneMapAt_self now m _ (hm _)]
          · rw [h2, containsPR_pruneMapAt_self now m _ (hm _)]
      · intro p hp
        have hpq : p ≠ e.peerID := by
          intro hpq
          exact hp ⟨e, List.mem_cons_self e es, hpq.symm, he⟩
        have hpe : ¬hasExpired now es p := by
          intro hpe
          rcases hpe with ⟨e', hmem, hpid, hexp⟩
          exact hp ⟨e', List.mem_cons_of_mem e hmem, hpid, hexp⟩
        obtain ⟨h1, h2⟩ := ihN p hpe
        rw [h1, h2, lookupPR_pruneMapAt_ne now m p e.peerID hpq,
          containsPR_pruneMapAt_ne now m p e.peerID hpq]
        exact ⟨rfl, rfl⟩
    · have hred : cleanupLoop now (e :: es) m = (e :: es, m) := by
        rw [cleanupLoop, if_neg he]
      rw [hred]
      have hallyoung : ∀ e' ∈ e :: es, youngB now e'.time = true := by
        intro e' he'
        rcases List.mem_cons.mp he' with heq | hmem
        · subst heq
          simp only [youngB, decide_eq_true_eq]
          omega
        · have := hpw.1 e' hmem
          simp only [youngB, decide_eq_true_eq]
          omega
      refine ⟨(List.filter_eq_self.mpr hallyoung).symm, ?_, ?_⟩
      · intro p hp
        rcases hp with ⟨e', he', _, hexp⟩
        have := hallyoung e' he'
        simp only [youngB, decide_eq_true_eq] at this
        omega
      · intro p _
        exact ⟨rfl, rfl⟩

/-- Times of the entries of peer `p` in the global log, in log order. -/
def subLog (reqs : List Entry) (p : PeerID) : List Int :=
  (reqs.filter (fun e => e.peerID == p)).map Entry.time

/-- States whose per-peer map mirrors the global log: each sublog lists
exactly the times of that peer's global entries, and a key is present exactly
when that peer has a global entry. -/
def MirrorsGlobal (r : RL) : Prop :=
  (∀ p, lookupPR r.peerReqs p = subLog r.reqs p) ∧
  (∀ p, containsPR r.peerReqs p = !(subLog r.reqs p).isEmpty)

lemma subLog_pairwise (reqs : List Entry) (p : PeerID)
    (h : reqs.Pairwise (fun a b => a.time ≤ b.time)) :
    (subLog reqs p).Pairwise (· ≤ ·) := by
  unfold subLog
  exact (h.sublist (List.filter_sublist _)).map Entry.time (fun a b hab => hab)

/-- Exactness of the full cleanup on states mirroring the global log: each
log loses exactly its entries aged one minute or more, and a peer's map key
survives exactly when its sublog keeps a young entry. -/
lemma cleanup_exact_aux (now : Int) (r : RL)
    (hg : r.reqs.Pairwise (fun a b => a.time ≤ b.time))
    (hcorr : ∀ p, lookupPR r.peerReqs p = subLog r.reqs p)
    (hkeys : ∀ p, containsPR r.peerReqs p = !(subLog r.reqs p).isEmpty) :
    (cleanup now r).reqs = r.reqs.filter (fun e => youngB now e.time) ∧
    (cleanup now r).dialDataReqs = pruneLog now r.dialDataReqs ∧
    (∀ p, lookupPR (cleanup now r).peerReqs p
        = (lookupPR r.peerReqs p).filter (youngB now)) ∧
    (∀ p, containsPR (cleanup now r).peerReqs p
        = !((lookupPR r.peerReqs p).filter (youngB now)).isEmpty) := by
  have hm : ∀ p, (lookupPR r.peerReqs p).Pairwise (· ≤ ·) := by
    intro p
    rw [hcorr p]
    exact subLog_pairwise r.reqs p hg
  obtain ⟨hG, hE, hN⟩ := cleanupLoop_exact now r.reqs r.peerReqs hg hm
  have hnoexp : ∀ p, ¬hasExpired now r.reqs p →
      (lookupPR r.peerReqs p).filter (youngB now) = lookupPR r.peerReqs p := by
    intro p hp
    rw [List.filter_eq_self]
    intro t ht
    rw [hcorr p] at ht
    obtain ⟨e, he, het⟩ := List.mem_map.mp ht
    have hef := List.mem_filter.mp he
    by_contra hy
    refine hp ⟨e, hef.1, by simpa using hef.2, ?_⟩
    simp only [youngB, decide_eq_true_eq] at hy
    omega
  have hPR : (cleanup now r).peerReqs = (cleanupLoop now r.reqs r.peerReqs).2 := rfl
  refine ⟨hG, rfl, ?_, ?_⟩
  · intro p
    rw [hPR]
    by_cases hp : hasExpired now r.reqs p
    · exact (hE p hp).1
    · rw [(hN p hp).1, hnoexp p hp]
  · intro p
    rw [hPR]
    by_cases hp : hasExpired now r.reqs p
    · exact (hE p hp).2
    · rw [(hN p hp).2, hnoexp p hp, hkeys p, hcorr p]

/-! ## Claim C2: the Accept procedure -/

/-- Claim C2: for every peer and every rate-limiter state, Accept first runs
cleanup at the current time, then returns false if the peer is in flight, if
the global log is at the RPM quota, or if the peer's log is at the PerPeerRPM
quota, inserting nothing in those cases; otherwise it inserts one entry with
the current timestamp into the global log, the per-peer log and the in-flight
set, and returns true. -/
theorem accept_matches_claim_procedure (now : Int) (r : RL) (p : PeerID) :
    Accept now r p = acceptSpec now r p := by
  unfold Accept acceptSpec
  by_cases h1 : p ∈ (cleanup now r).ongoingReqs
  · simp [h1]
  · by_cases h2 : (cleanup now r).RPM ≤ ((cleanup now r).reqs.length : Int)
    · simp [h1, h2]
    · by_cases h3 : (cleanup now r).PerPeerRPM
          ≤ ((lookupPR (cleanup now r).peerReqs p).length : Int)
      · simp [h1, h2, h3]
      · simp [h1, h2, h3]

/-! ## Claim C5: exactness of cleanup -/

/-- State used to refute claim C5 as stated: its logs are non-decreasing, but
peer 0 owns an expired sublog entry with no matching global entry. -/
def rlBad : RL :=
  ⟨10, 10, 10, [], [(0, [0])], [], []⟩

/-- Claim C5 as stated is false on the code: in the state rlBad every log is
non-decreasing in time and the sublog entry of peer 0 is 100 seconds old at
time 100, yet cleanup at time 100 keeps it, because the scan prunes a sublog
only when it observes an expired entry of the same peer in the global log,
and the global log here is empty. -/
theorem cleanup_c5_counterexample :
    rlBad.reqs.Pairwise (fun a b => a.time ≤ b.time) ∧
    rlBad.dialDataReqs.Pairwise (fun a b => a ≤ b) ∧
    (lookupPR rlBad.peerReqs 0).Pairwise (fun a b => a ≤ b) ∧
    minuteDur ≤ 100 - 0 ∧
    lookupPR (cleanup 100 rlBad).peerReqs 0 = [0] := by
  decide

/-- Claim C5 (amended with the mirror hypothesis the counterexample forces):
for every rate-limiter state whose logs are non-decreasing in time and whose
per-peer map mirrors the global log, cleanup at time now removes from the
global log, every per-peer sublog and the dial-data log exactly the entries
aged 60 seconds or more, keeps every younger entry, and deletes a peer's map
entry precisely when that peer's filtered sublog becomes empty. -/
theorem cleanup_exact_of_mirrors (now : Int) (r : RL)
    (hg : r.reqs.Pairwise (fun a b => a.time ≤ b.time))
    (hd : r.dialDataReqs.Pairwise (· ≤ ·))
    (hmir : MirrorsGlobal r) :
    (cleanup now r).reqs = r.reqs.filter (fun e => youngB now e.time) ∧
    (cleanup now r).dialDataReqs = r.dialDataReqs.filter (youngB now) ∧
    (∀ p, lookupPR (cleanup now r).peerReqs p
        = (lookupPR r.peerReqs p).filter (youngB now)) ∧
    (∀ p, containsPR (cleanup now r).peerReqs p
        = !((lookupPR r.peerReqs p).filter (youngB now)).isEmpty) := by
  obtain ⟨hG, hD, hL, hC⟩ := cleanup_exact_aux now r hg hmir.1 hmir.2
  exact ⟨hG, by rw [hD, pruneLog_eq_filter now _ hd], hL, hC⟩

/-- State exercising the amended claim C5: peer 1 has one expired and one
young entry in every log. -/
def rlEx : RL :=
  ⟨10, 10, 10, [Entry.mk 1 0, Entry.mk 1 70], [(1, [0, 70])], [0, 70], []⟩

lemma rlEx_mirrors : MirrorsGlobal rlEx := by
  constructor
  · intro p
    by_cases h1 : p = 1
    · subst h1
      rfl
    · have hb : ((1 : Nat) == p) = false := by
        simp
        exact Ne.symm h1
      unfold rlEx lookupPR subLog
      rw [List.find?_cons_of_neg _ (by simp [hb])]
      rw [List.filter_cons_of_neg (by simp [hb]), List.filter_cons_of_neg (by simp [hb])]
      rfl
  · intro p
    by_cases h1 : p = 1
    · subst h1
      rfl
    · have hb : ((1 : Nat) == p) = false := by
        simp
        exact Ne.symm h1
      unfold rlEx containsPR subLog
      rw [List.find?_cons_of_neg _ (by simp [hb])]
      rw [List.filter_cons_of_neg (by simp [hb]), List.filter_cons_of_neg (by simp [hb])]
      rfl

/-- Witness for the amended claim C5 at the concrete state rlEx and time 100:
the entries of age 100 disappear from all three logs, the entries of age 30
survive, and the key of peer 1 survives because its sublog stays non-empty. -/
theorem cleanup_exact_of_mirrors_witness :
    (cleanup 100 rlEx).reqs = [Entry.mk 1 70] ∧
    (cleanup 100 rlEx).dialDataReqs = [70] ∧
    lookupPR (cleanup 100 rlEx).peerReqs 1 = [70] ∧
    containsPR (cleanup 100 rlEx).peerReqs 1 = true := by
  obtain ⟨hG, hD, hL, hC⟩ :=
    cleanup_exact_of_mirrors 100 rlEx
      (by unfold rlEx; simp [List.pairwise_cons])
      (by unfold rlEx; simp [List.pairwise_cons])
      rlEx_mirrors
  refine ⟨by rw [hG]; decide, by rw [hD]; decide, by rw [hL 1]; decide, by rw [hC 1]; decide⟩

/-! ## Claim C1: the default dial-data request policy -/

/-- Inbound stream whose connection was observed from remote IP 1 on the
local server address with IP 2. -/
def c1Stream : NetStream :=
  ⟨⟨⟨some 1⟩, ⟨some 2⟩⟩⟩

/-- Candidate dial address with the same IP 1 as the observed remote
endpoint of c1Stream. -/
def c1DialAddr : Multiaddr :=
  ⟨some 1⟩

/-- Claim C1 fails on the code: for an inbound connection observed from
remote IP 1 on a server address with IP 2, and a dial address with IP 1, the
claim (and the spec-worded policy) requires no dial data since the remote IP
equals the dial IP, but the source policy compares the remote IP against the
IP of the local address of the inbound connection, never reading its
dialAddr parameter, and returns true. -/
theorem amplification_policy_diverges_from_claim :
    amplificationAttackPrevention c1Stream c1DialAddr = true ∧
    amplificationAttackPreventionSpec c1Stream c1DialAddr = false := by
  decide

/-! ## Claim C4: dial back -/

/-- Claim C4: dialBack returns E_DIAL_ERROR exactly when connection
establishment on the secondary host fails; E_DIAL_BACK_ERROR exactly when
opening the dial-back stream or writing the nonce message fails, resetting
the stream in the write-failure case; and OK exactly when the nonce write
completed, regardless of the outcome of the 1-byte confirmation read. -/
theorem dialBack_status_characterisation (env : DialBackEnv) (nonce : Nat) :
    ((dialBack env nonce).2 = DialStatus.eDialError ↔ env.connectErr = true) ∧
    ((dialBack env nonce).2 = DialStatus.eDialBackError ↔
      (env.connectErr = false ∧ (env.newStreamErr = true ∨ env.writeNonceErr = true))) ∧
    (env.connectErr = false → env.newStreamErr = false → env.writeNonceErr = true →
      DBEvent.resetStream ∈ (dialBack env nonce).1) ∧
    ((dialBack env nonce).2 = DialStatus.ok ↔
      (env.connectErr = false ∧ env.newStreamErr = false ∧ env.writeNonceErr = false)) := by
  obtain ⟨c, n, w, rb⟩ := env
  cases c <;> cases n <;> cases w <;> simp [dialBack]

/-- Witness for claim C4 at a concrete environment where only the nonce
write fails: the status is E_DIAL_BACK_ERROR and the stream was reset. -/
theorem dialBack_status_characterisation_witness :
    (dialBack ⟨false, false, true, false⟩ 7).2 = DialStatus.eDialBackError ∧
    DBEvent.resetStream ∈ (dialBack ⟨false, false, true, false⟩ 7).1 := by
  have h := dialBack_status_characterisation ⟨false, false, true, false⟩ 7
  exact ⟨h.2.1.mpr ⟨rfl, Or.inr rfl⟩, h.2.2.1 rfl rfl rfl⟩

/-! ## Lemmas about the dial-data exchange -/

lemma dialDataLoop_writes_nil (msgs : List DataMsg) :
    ∀ remain : Int, writesOf (dialDataLoop remain msgs).1 = [] := by
  induction msgs with
  | nil =>
    intro remain
    by_cases h : remain ≤ 0
    · rw [dialDataLoop, if_pos h]
      rfl
    · rw [dialDataLoop, if_neg h]
      rfl
  | cons m ms ih =>
    intro remain
    cases m with
    | readFailure =>
      by_cases h : remain ≤ 0
      · rw [dialDataLoop, if_pos h]
        rfl
      · rw [dialDataLoop, if_neg h]
        rfl
    | wrongType =>
      by_cases h : remain ≤ 0
      · rw [dialDataLoop, if_pos h]
        rfl
      · rw [dialDataLoop, if_neg h]
        rfl
    | chunk n =>
      by_cases h : remain ≤ 0
      · rw [dialDataLoop, if_pos h]
        rfl
      · by_cases h2 : n < 100 ∧ 0 < remain - (n : Int)
        · rw [dialDataLoop, if_neg h, if_pos h2]
          rfl
        · rw [dialDataLoop, if_neg h, if_neg h2]
          have hih := ih (remain - (n : Int))
          simp only [writesOf, List.filterMap_cons] at hih ⊢
          exact hih

lemma dialDataLoop_events (msgs : List DataMsg) :
    ∀ remain : Int, ∀ e ∈ (dialDataLoop remain msgs).1, ∃ m, e = Event.readData m := by
  induction msgs with
  | nil =>
    intro remain e he
    by_cases h : remain ≤ 0
    · rw [dialDataLoop, if_pos h] at he
      simp at he
    · rw [dialDataLoop, if_neg h] at he
      simp at he
  | cons m ms ih =>
    intro remain e he
    cases m with
    | readFailure =>
      by_cases h : remain ≤ 0
      · rw [dialDataLoop, if_pos h] at he
        simp at he
      · rw [dialDataLoop, if_neg h] at he
        simp at he
        exact ⟨DataMsg.readFailure, he⟩
    | wrongType =>
      by_cases h : remain ≤ 0
      · rw [dialDataLoop, if_pos h] at he
        simp at he
      · rw [dialDataLoop, if_neg h] at he
        simp at he
        exact ⟨DataMsg.wrongType, he⟩
    | chunk n =>
      by_cases h : remain ≤ 0
      · rw [dialDataLoop, if_pos h] at he
        simp at he
      · by_cases h2 : n < 100 ∧ 0 < remain - (n : Int)
        · rw [dialDataLoop, if_neg h, if_pos h2] at he
          simp at he
          exact ⟨DataMsg.chunk n, he⟩
        · rw [dialDataLoop, if_neg h, if_neg h2] at he
          simp only [List.mem_cons] at he
          rcases he with he | he
          · exact ⟨DataMsg.chunk n, he⟩
          · exact ih (remain - (n : Int)) e he

lemma dialDataLoop_bytes (msgs : List DataMsg) :
    ∀ remain : Int, (dialDataLoop remain msgs).2 = DialDataOutcome.success →
    remain ≤ (bytesRead (dialDataLoop remain msgs).1 : Int) := by
  induction msgs with
  | nil =>
    intro remain h
    by_cases hr : remain ≤ 0
    · rw [dialDataLoop, if_pos hr]
      simp [bytesRead]
      omega
    · rw [dialDataLoop, if_neg hr] at h
      simp at h
  | cons m ms ih =>
    intro remain h
    cases m with
    | readFailure =>
      by_cases hr : remain ≤ 0
      · rw [dialDataLoop, if_pos hr]
        simp [bytesRead]
        omega
      · rw [dialDataLoop, if_neg hr] at h
        simp at h
    | wrongType =>
      by_cases hr : remain ≤ 0
      · rw [dialDataLoop, if_pos hr]
        simp [bytesRead]
        omega
      · rw [dialDataLoop, if_neg hr] at h
        simp at h
    | chunk n =>
      by_cases hr : remain ≤ 0
      · rw [dialDataLoop, if_pos hr]
        simp [bytesRead]
        omega
      · by_cases h2 : n < 100 ∧ 0 < remain - (n : Int)
        · rw [dialDataLoop, if_neg hr, if_pos h2] at h
          simp at h
        · rw [dialDataLoop, if_neg hr, if_neg h2] at h ⊢
          have hih := ih (remain - (n : Int)) h
          simp only [bytesRead, List.filterMap_cons, List.sum_cons] at hih ⊢
          push_cast at hih ⊢
          omega

lemma getDialData_events (randVal addrIdx : Nat) (we : Bool) (msgs : List DataMsg) :
    ∃ rest, (getDialData randVal addrIdx we msgs).1
      = Event.write (WireMsg.dialDataRequest addrIdx (ddNumBytes randVal)) :: rest ∧
      ∀ e ∈ rest, ∃ m, e = Event.readData m := by
  unfold getDialData
  by_cases hwe : we
  · refine ⟨[], by simp [hwe], by simp⟩
  · exact ⟨(dialDataLoop ((ddNumBytes randVal : Int)) msgs).1, by simp [hwe],
      dialDataLoop_events msgs _⟩

lemma getDialData_writes (randVal addrIdx : Nat) (we : Bool) (msgs : List DataMsg) :
    writesOf (getDialData randVal addrIdx we msgs).1
      = [WireMsg.dialDataRequest addrIdx (ddNumBytes randVal)] := by
  unfold getDialData
  by_cases hwe : we
  · simp [hwe, writesOf]
  · have := dialDataLoop_writes_nil msgs ((ddNumBytes randVal : Int))
    simp [hwe, writesOf] at this ⊢
    exact this

lemma getDialData_bytesRead (randVal addrIdx : Nat) (msgs : List DataMsg) :
    bytesRead (getDialData randVal addrIdx false msgs).1
      = bytesRead (dialDataLoop ((ddNumBytes randVal : Int)) msgs).1 := by
  unfold getDialData
  rw [if_neg (by simp)]
  simp [bytesRead, List.filterMap_cons]

/-! ## Claim C6: dial-data exchange failure modes -/

/-- Claim C6: during the dial-data exchange, reading a message that is not a
DialDataResponse fails the exchange with the invalid-message-type error;
reading a chunk smaller than 100 bytes while more bytes are still required
fails it with the chunk-too-small error; and whenever the exchange fails the
request handler resets the stream and writes no DialResponse. -/
theorem dial_data_failure_modes (remain : Int) (n : Nat) (ms : List DataMsg)
    (allowPrivate : Bool) (env : HandlerEnv) (nonce : Nat)
    (addrs : List AddrInfo) (idx : Nat) :
    (0 < remain →
      dialDataLoop remain (DataMsg.wrongType :: ms)
        = ([Event.readData DataMsg.wrongType], DialDataOutcome.invalidType)) ∧
    (0 < remain → n < 100 → (n : Int) < remain →
      dialDataLoop remain (DataMsg.chunk n :: ms)
        = ([Event.readData (DataMsg.chunk n)], DialDataOutcome.chunkTooSmall)) ∧
    (env.setServiceErr = false → env.reserveErr = false → env.acceptOk = true →
      env.readReq = some (InMsg.dialRequest nonce addrs) →
      selectDialAddr allowPrivate 0 addrs = some idx →
      env.acceptDDOk = true → env.policyRequiresData = true →
      (getDialData env.randVal idx env.ddReqWriteErr env.dataMsgs).2
        ≠ DialDataOutcome.success →
      Event.reset ∈ handleDialRequest allowPrivate env ∧
      ∀ st ds i, Event.write (WireMsg.dialResponse st ds i)
        ∉ handleDialRequest allowPrivate env) := by
  refine ⟨?_, ?_, ?_⟩
  · intro h
    rw [dialDataLoop, if_neg (by omega)]
  · intro h hn hr
    rw [dialDataLoop, if_neg (by omega), if_pos ⟨hn, by omega⟩]
  · intro h1 h2 h3 h4 h5 h6 h7 h8
    have hred : handleDialRequest allowPrivate env
        = Event.acceptCall true ::
          ((Event.acceptDialDataCall true ::
            ((getDialData env.randVal idx env.ddReqWriteErr env.dataMsgs).1
              ++ [Event.reset]))
            ++ [Event.completeRequestCall]) := by
      unfold handleDialRequest handleAfterAccept
      rw [h1, h2, h3, h4]
      simp [h5, h6, h7, if_neg h8]
    obtain ⟨rest, hg, hrest⟩ :=
      getDialData_events env.randVal idx env.ddReqWriteErr env.dataMsgs
    rw [hred, hg]
    constructor
    · simp
    · intro st ds i hmem
      rcases List.mem_cons.mp hmem with h | hmem2
      · simp at h
      · rcases List.mem_append.mp hmem2 with h2 | h2
        · rcases List.mem_cons.mp h2 with h | h3
          · simp at h
          · rcases List.mem_append.mp h3 with h4 | h4
            · rcases List.mem_cons.mp h4 with h | h5
              · simp at h
              · obtain ⟨m, hm⟩ := hrest _ h5
                simp at hm
            · simp at h4
        · simp at h2

/-- Candidate address used by the handler witnesses: public, parseable,
circuit-free and dialable by both hosts. -/
def c6Addr : AddrInfo :=
  ⟨true, true, false, true, true⟩

/-- Handler environment used by the claim C6 witness: the request passes
admission, address selection picks index 0, dial data is demanded and the
client answers with a single 50-byte chunk. -/
def c6Env : HandlerEnv :=
  ⟨false, false, true, false, some (InMsg.dialRequest 5 [c6Addr]), false,
    true, true, false, 0, false, [DataMsg.chunk 50], ⟨false, false, false, true⟩, false⟩

/-- Witness for claim C6: a wrong message type fails with the
invalid-message-type error, a 50-byte chunk while 150 bytes remain fails with
the chunk-too-small error, and the handler run on c6Env resets the stream and
writes no DialResponse. -/
theorem dial_data_failure_modes_witness :
    dialDataLoop 200 [DataMsg.wrongType]
      = ([Event.readData DataMsg.wrongType], DialDataOutcome.invalidType) ∧
    dialDataLoop 200 [DataMsg.chunk 50]
      = ([Event.readData (DataMsg.chunk 50)], DialDataOutcome.chunkTooSmall) ∧
    Event.reset ∈ handleDialRequest false c6Env ∧
    Event.write (WireMsg.dialResponse RespStatus.okResp DialStatus.ok 0)
      ∉ handleDialRequest false c6Env := by
  have h := dial_data_failure_modes 200 50 [] false c6Env 5 [c6Addr] 0
  have h3 := h.2.2 rfl rfl rfl rfl (by decide) rfl rfl (by decide)
  exact ⟨h.1 (by decide), h.2.1 (by decide) (by decide) (by decide), h3.1, h3.2 _ _ _⟩

/-! ## Claim C7: dial-data demand -/

/-- Claim C7: the demanded num_bytes lies in the half-open interval from
minHandshakeSizeBytes to maxHandshakeSizeBytes; the DialDataRequest carrying
the selected address index and num_bytes is the first event of the exchange,
preceding every read, and is its only write; and when the exchange succeeds,
the cumulative payload of the chunks read is at least num_bytes. -/
theorem dial_data_demand_bounds (randVal addrIdx : Nat) (we : Bool) (msgs : List DataMsg) :
    minHandshakeSizeBytes ≤ ddNumBytes randVal ∧
    ddNumBytes randVal < maxHandshakeSizeBytes ∧
    (∃ rest, (getDialData randVal addrIdx we msgs).1
        = Event.write (WireMsg.dialDataRequest addrIdx (ddNumBytes randVal)) :: rest ∧
        ∀ e ∈ rest, ∃ m, e = Event.readData m) ∧
    ((getDialData randVal addrIdx we msgs).2 = DialDataOutcome.success →
      ddNumBytes randVal ≤ bytesRead (getDialData randVal addrIdx we msgs).1) := by
  refine ⟨Nat.le_add_right _ _, ?_, getDialData_events randVal addrIdx we msgs, ?_⟩
  · have h : randVal % (maxHandshakeSizeBytes - minHandshakeSizeBytes)
        < maxHandshakeSizeBytes - minHandshakeSizeBytes :=
      Nat.mod_lt _ (by decide)
    simp only [ddNumBytes, minHandshakeSizeBytes, maxHandshakeSizeBytes] at h ⊢
    omega
  · intro hs
    have hwe : we = false := by
      by_contra hwe
      rw [Bool.not_eq_false] at hwe
      unfold getDialData at hs
      rw [if_pos hwe] at hs
      simp at hs
    subst hwe
    have hs2 : (dialDataLoop ((ddNumBytes randVal : Int)) msgs).2
        = DialDataOutcome.success := by
      unfold getDialData at hs
      rw [if_neg (by simp)] at hs
      exact hs
    have hb := dialDataLoop_bytes msgs ((ddNumBytes randVal : Int)) hs2
    rw [getDialData_bytesRead randVal addrIdx msgs]
    exact_mod_cast hb

/-- Witness for claim C7 at a concrete exchange: demand 30000 bytes, client
answers with one 30000-byte chunk, exchange succeeds with enough bytes. -/
theorem dial_data_demand_bounds_witness :
    minHandshakeSizeBytes ≤ ddNumBytes 0 ∧
    ddNumBytes 0 < maxHandshakeSizeBytes ∧
    ddNumBytes 0 ≤ bytesRead (getDialData 0 3 false [DataMsg.chunk 30000]).1 := by
  have h := dial_data_demand_bounds 0 3 false [DataMsg.chunk 30000]
  exact ⟨h.1, h.2.1, h.2.2.2 (by decide)⟩

/-! ## Claim C8: address selection -/

lemma selectDialAddr_eq_findIdx_go (allowPrivate : Bool) (addrs : List AddrInfo) :
    ∀ i, i ≤ maxPeerAddresses →
    selectDialAddr allowPrivate i addrs
      = (addrs.take (maxPeerAddresses - i)).findIdx? (survives allowPrivate) i := by
  induction addrs with
  | nil =>
    intro i _
    simp [selectDialAddr]
  | cons a rest ih =>
    intro i hi
    by_cases hit : maxPeerAddresses ≤ i
    · have h0 : maxPeerAddresses - i = 0 := by omega
      rw [h0]
      simp [selectDialAddr, hit]
    · have hk : maxPeerAddresses - i = (maxPeerAddresses - (i + 1)) + 1 := by omega
      have hrec := ih (i + 1) (by omega)
      rw [hk, List.take_succ_cons, List.findIdx?_cons, ← hrec]
      obtain ⟨pa, pub, circ, dd, hd⟩ := a
      cases pa <;> cases pub <;> cases circ <;> cases dd <;> cases hd <;>
        cases allowPrivate <;>
        simp [selectDialAddr, survives, hit]

/-- Claim C8: address selection searches the first maxPeerAddresses addresses
of the request for the first survivor, where an address survives exactly when
it parses, is public (unless private addresses are allowed), carries no
circuit component and is dialable by the dialer host and the main host; the
index returned is the position in the original list; and when no address
survives, the handler writes E_DIAL_REFUSED and performs no dial back. -/
theorem address_selection_first_survivor (allowPrivate : Bool) (env : HandlerEnv)
    (nonce : Nat) :
    (∀ addrs, selectDialAddr allowPrivate 0 addrs
        = (addrs.take maxPeerAddresses).findIdx? (survives allowPrivate)) ∧
    (∀ addrs, env.setServiceErr = false → env.reserveErr = false →
      env.acceptOk = true →
      env.readReq = some (InMsg.dialRequest nonce addrs) →
      selectDialAddr allowPrivate 0 addrs = none →
      Event.write refusedResp ∈ handleDialRequest allowPrivate env ∧
      ∀ i st, Event.dialBackTo i st ∉ handleDialRequest allowPrivate env) := by
  constructor
  · intro addrs
    have h := selectDialAddr_eq_findIdx_go allowPrivate addrs 0 (by omega)
    simpa using h
  · intro addrs h1 h2 h3 h4 h5
    have hred : handleDialRequest allowPrivate env
        = Event.acceptCall true ::
          ((Event.write refusedResp
              :: (if env.refusedWriteErr then [Event.reset] else []))
            ++ [Event.completeRequestCall]) := by
      unfold handleDialRequest handleAfterAccept
      rw [h1, h2, h3, h4]
      simp [h5]
    rw [hred]
    constructor
    · simp
    · intro i st hmem
      by_cases hrw : env.refusedWriteErr <;>
        simp [hrw] at hmem

/-- Handler environment for the claim C8 witness: the request passes
admission but carries only a non-parsing address, a private address and a
relayed address. -/
def c8Env : HandlerEnv :=
  ⟨false, false, true, false,
    some (InMsg.dialRequest 5 [AddrInfo.mk false true false true true,
      AddrInfo.mk true false false true true, AddrInfo.mk true true true true true]),
    false, false, true, false, 0, false, [], ⟨false, false, false, true⟩, false⟩

/-- Witness for claim C8: a request whose only addresses fail to parse, are
private, or are relayed yields no survivor, and the handler answers
E_DIAL_REFUSED without dialing back. -/
theorem address_selection_first_survivor_witness :
    selectDialAddr false 0 [AddrInfo.mk false true false true true,
        AddrInfo.mk true false false true true, AddrInfo.mk true true true true true]
      = ([AddrInfo.mk false true false true true, AddrInfo.mk true false false true true,
          AddrInfo.mk true true true true true].take maxPeerAddresses).findIdx?
          (survives false) ∧
    Event.write refusedResp ∈ handleDialRequest false c8Env ∧
    Event.dialBackTo 0 DialStatus.ok ∉ handleDialRequest false c8Env := by
  have h := address_selection_first_survivor false c8Env 5
  have h2 := h.2 [AddrInfo.mk false true false true true,
      AddrInfo.mk true false false true true, AddrInfo.mk true true true true true]
      rfl rfl rfl rfl (by decide)
  exact ⟨h.1 _, h2.1, h2.2 0 DialStatus.ok⟩

/-! ## Claim C3: the dial-data quota is consulted unconditionally -/

/-- Claim C3: on every request that passed admission and obtained a dialable
address, the handler calls AcceptDialDataRequest, whatever the dial-data
policy decided; and when that quota rejects, the handler writes
E_REQUEST_REJECTED and returns without dialing back. -/
theorem dial_data_quota_unconditional (allowPrivate : Bool) (env : HandlerEnv)
    (nonce : Nat) (addrs : List AddrInfo) (idx : Nat)
    (h1 : env.setServiceErr = false) (h2 : env.reserveErr = false)
    (h3 : env.acceptOk = true)
    (h4 : env.readReq = some (InMsg.dialRequest nonce addrs))
    (h5 : selectDialAddr allowPrivate 0 addrs = some idx) :
    Event.acceptDialDataCall env.acceptDDOk ∈ handleDialRequest allowPrivate env ∧
    (env.acceptDDOk = false →
      Event.write rejectedResp ∈ handleDialRequest allowPrivate env ∧
      ∀ i st, Event.dialBackTo i st ∉ handleDialRequest allowPrivate env) := by
  by_cases h6 : env.acceptDDOk
  · have hred : handleDialRequest allowPrivate env
        = Event.acceptCall true ::
          ((Event.acceptDialDataCall true ::
            (if env.policyRequiresData then
              (if (getDialData env.randVal idx env.ddReqWriteErr env.dataMsgs).2
                  = DialDataOutcome.success then
                (getDialData env.randVal idx env.ddReqWriteErr env.dataMsgs).1
                  ++ dialAndRespond env nonce idx
              else (getDialData env.randVal idx env.ddReqWriteErr env.dataMsgs).1
                  ++ [Event.reset])
            else dialAndRespond env nonce idx))
            ++ [Event.completeRequestCall]) := by
      unfold handleDialRequest handleAfterAccept
      rw [h1, h2, h3, h4]
      simp [h5, h6]
    rw [h6, hred]
    refine ⟨by simp, ?_⟩
    intro hcon
    exact absurd hcon (by simp)
  · rw [Bool.not_eq_true] at h6
    have hred : handleDialRequest allowPrivate env
        = Event.acceptCall true ::
          ((Event.acceptDialDataCall false ::
            Event.write rejectedResp
              :: (if env.rejWriteErr2 then [Event.reset] else []))
            ++ [Event.completeRequestCall]) := by
      unfold handleDialRequest handleAfterAccept
      rw [h1, h2, h3, h4]
      simp [h5, h6]
    rw [h6, hred]
    refine ⟨by simp, ?_⟩
    intro _
    constructor
    · simp
    · intro i st hmem
      by_cases hrw : env.rejWriteErr2 <;>
        simp [hrw] at hmem

/-- Handler environment for the claim C3 witness: the request passes
admission and address selection, the policy does not require dial data, and
the dial-data quota rejects. -/
def c3Env : HandlerEnv :=
  ⟨false, false, true, false, some (InMsg.dialRequest 5 [c6Addr]), false,
    false, false, false, 0, false, [], ⟨false, false, false, true⟩, false⟩

/-- Witness for claim C3 at c3Env: even though the policy does not require
dial data, the dial-data quota was consulted; it rejects, so the handler
writes E_REQUEST_REJECTED and never dials back. -/
theorem dial_data_quota_unconditional_witness :
    Event.acceptDialDataCall false ∈ handleDialRequest false c3Env ∧
    Event.write rejectedResp ∈ handleDialRequest false c3Env ∧
    Event.dialBackTo 0 DialStatus.ok ∉ handleDialRequest false c3Env := by
  have h := dial_data_quota_unconditional false c3Env 5 [c6Addr] 0
      rfl rfl rfl rfl (by decide)
  have h2 := h.2 rfl
  exact ⟨h.1, h2.1, h2.2 0 DialStatus.ok⟩

/-! ## Claim C10: shape of the written messages -/

lemma writesOf_cons_acceptCall (b : Bool) (tr : List Event) :
    writesOf (Event.acceptCall b :: tr) = writesOf tr := rfl

lemma writesOf_cons_acceptDialDataCall (b : Bool) (tr : List Event) :
    writesOf (Event.acceptDialDataCall b :: tr) = writesOf tr := rfl

lemma writesOf_cons_write (m : WireMsg) (tr : List Event) :
    writesOf (Event.write m :: tr) = m :: writesOf tr := rfl

lemma writesOf_append (a b : List Event) :
    writesOf (a ++ b) = writesOf a ++ writesOf b :=
  List.filterMap_append a b _

lemma writesOf_dialAndRespond (env : HandlerEnv) (nonce idx : Nat) :
    writesOf (dialAndRespond env nonce idx)
      = [WireMsg.dialResponse RespStatus.okResp (dialBack env.dbEnv nonce).2 idx] := by
  unfold dialAndRespond
  by_cases h : env.finalWriteErr <;> simp [h, writesOf]

lemma handleAfterAccept_writes (allowPrivate : Bool) (env : HandlerEnv) :
    writesOf (handleAfterAccept allowPrivate env) = [] ∨
    (∃ m, isResp m = true ∧ writesOf (handleAfterAccept allowPrivate env) = [m]) ∨
    (∃ m, isDDReq m = true ∧ writesOf (handleAfterAccept allowPrivate env) = [m]) ∨
    (∃ m1 m2, isDDReq m1 = true ∧ isResp m2 = true ∧
      writesOf (handleAfterAccept allowPrivate env) = [m1, m2]) := by
  cases hrr : env.readReq with
  | none =>
    left
    unfold handleAfterAccept
    rw [hrr]
    rfl
  | some msg =>
    cases msg with
    | invalid =>
      left
      unfold handleAfterAccept
      rw [hrr]
      rfl
    | dialRequest nonce addrs =>
      cases hsel : selectDialAddr allowPrivate 0 addrs with
      | none =>
        right; left
        refine ⟨refusedResp, rfl, ?_⟩
        unfold handleAfterAccept
        rw [hrr]
        by_cases hrw : env.refusedWriteErr <;> simp [hsel, hrw, writesOf]
      | some idx =>
        by_cases hdd : env.acceptDDOk
        · by_cases hpol : env.policyRequiresData
          · by_cases hsuc : (getDialData env.randVal idx env.ddReqWriteErr env.dataMsgs).2
                = DialDataOutcome.success
            · right; right; right
              refine ⟨WireMsg.dialDataRequest idx (ddNumBytes env.randVal),
                WireMsg.dialResponse RespStatus.okResp (dialBack env.dbEnv nonce).2 idx,
                rfl, rfl, ?_⟩
              unfold handleAfterAccept
              rw [hrr]
              simp [hsel, hdd, hpol, hsuc, writesOf_cons_acceptDialDataCall, writesOf_append,
                getDialData_writes, writesOf_dialAndRespond]
            · right; right; left
              refine ⟨WireMsg.dialDataRequest idx (ddNumBytes env.randVal), rfl, ?_⟩
              unfold handleAfterAccept
              rw [hrr]
              simp [hsel, hdd, hpol, if_neg hsuc, writesOf_cons_acceptDialDataCall,
                writesOf_append, getDialData_writes]
              rfl
          · right; left
            refine ⟨WireMsg.dialResponse RespStatus.okResp (dialBack env.dbEnv nonce).2 idx,
              rfl, ?_⟩
            unfold handleAfterAccept
            rw [hrr]
            simp [hsel, hdd, hpol, writesOf_cons_acceptDialDataCall, writesOf_dialAndRespond]
        · right; left
          rw [Bool.not_eq_true] at hdd
          refine ⟨rejectedResp, rfl, ?_⟩
          unfold handleAfterAccept
          rw [hrr]
          by_cases hrw : env.rejWriteErr2 <;> simp [hsel, hdd, hrw, writesOf]

/-- Claim C10: in every handler execution the messages written to the inbound
stream form one of four shapes: nothing, a single DialResponse, a single
DialDataRequest, or a DialDataRequest followed by one DialResponse; hence at
most one DialResponse is ever written, nothing is written after it, and the
only other message is a single DialDataRequest preceding any DialResponse. -/
theorem handler_writes_shape (allowPrivate : Bool) (env : HandlerEnv) :
    writesOf (handleDialRequest allowPrivate env) = [] ∨
    (∃ m, isResp m = true ∧ writesOf (handleDialRequest allowPrivate env) = [m]) ∨
    (∃ m, isDDReq m = true ∧ writesOf (handleDialRequest allowPrivate env) = [m]) ∨
    (∃ m1 m2, isDDReq m1 = true ∧ isResp m2 = true ∧
      writesOf (handleDialRequest allowPrivate env) = [m1, m2]) := by
  by_cases h1 : env.setServiceErr
  · left
    unfold handleDialRequest
    simp [h1, writesOf]
  · by_cases h2 : env.reserveErr
    · left
      unfold handleDialRequest
      simp [h1, h2, writesOf]
    · by_cases h3 : env.acceptOk
      · have heq : writesOf (handleDialRequest allowPrivate env)
            = writesOf (handleAfterAccept allowPrivate env) := by
          unfold handleDialRequest
          rw [if_neg (by simp [h1]), if_neg (by simp [h2]), if_neg (by simp [h3]),
            writesOf_cons_acceptCall, writesOf_append,
            show writesOf [Event.completeRequestCall] = [] from rfl, List.append_nil]
        rw [heq]
        exact handleAfterAccept_writes allowPrivate env
      · right; left
        refine ⟨rejectedResp, rfl, ?_⟩
        unfold handleDialRequest
        rw [Bool.not_eq_true] at h3
        by_cases h4 : env.rejWriteErr <;> simp [h1, h2, h3, h4, writesOf]

/-! ## Claim C9: rate-limiter invariants along every run -/

/-- One call of the rate limiter: the two admission calls carry the wall
time the limiter reads from its clock. -/
inductive RLOp
  | accept (t : Int) (p : PeerID)
  | acceptDialData (t : Int) (p : PeerID)
  | complete (p : PeerID)
deriving DecidableEq

def stepRL (s : RL) : RLOp → RL
  | .accept t p => (Accept t s p).2
  | .acceptDialData t p => (AcceptDialDataRequest t s p).2
  | .complete p => CompleteRequest s p

def runRL (s : RL) (ops : List RLOp) : RL :=
  ops.foldl stepRL s

def opTime? : RLOp → Option Int
  | .accept t _ => some t
  | .acceptDialData t _ => some t
  | .complete _ => none

/-- Wall-clock readings of a call sequence, in call order. -/
def opTimes (ops : List RLOp) : List Int :=
  ops.filterMap opTime?

/-- The empty rate-limiter state with the given quotas. -/
def emptyRL (rpm pprpm ddrpm : Int) : RL :=
  ⟨rpm, pprpm, ddrpm, [], [], [], []⟩

/-- All log timestamps of the state are at most the bound. -/
def timesLE (s : RL) (b : Int) : Prop :=
  (∀ e ∈ s.reqs, e.time ≤ b) ∧ (∀ t ∈ s.dialDataReqs, t ≤ b)

/-- The invariant of claim C9: the global log length is within RPM, every
per-peer log length is within PerPeerRPM, the in-flight set holds at most one
entry per peer, the per-peer map mirrors the global log (each admitted entry
appears exactly once in the global log and exactly once in its peer's
sublog), and all logs are non-decreasing in time. -/
def InvRL (s : RL) : Prop :=
  (s.reqs.length : Int) ≤ s.RPM ∧
  (∀ p, ((lookupPR s.peerReqs p).length : Int) ≤ s.PerPeerRPM) ∧
  s.ongoingReqs.Nodup ∧
  MirrorsGlobal s ∧
  s.reqs.Pairwise (fun a b => a.time ≤ b.time) ∧
  s.dialDataReqs.Pairwise (fun a b => a ≤ b)

lemma subLog_filter_young (now : Int) (reqs : List Entry) (p : PeerID) :
    subLog (reqs.filter (fun e => youngB now e.time)) p
      = (subLog reqs p).filter (youngB now) := by
  unfold subLog
  rw [List.filter_map, List.filter_comm]
  rfl

lemma cleanup_preserves (now : Int) (s : RL) (b : Int)
    (hI : InvRL s) (hT : timesLE s b) :
    InvRL (cleanup now s) ∧ timesLE (cleanup now s) b := by
  obtain ⟨hlen, hplen, hnd, hmir, hpw, hdpw⟩ := hI
  obtain ⟨hG, hD, hL, hC⟩ := cleanup_exact_aux now s hpw hmir.1 hmir.2
  have hRf : (cleanup now s).RPM = s.RPM := rfl
  have hPf : (cleanup now s).PerPeerRPM = s.PerPeerRPM := rfl
  have hOf : (cleanup now s).ongoingReqs = s.ongoingReqs := rfl
  refine ⟨⟨?_, ?_, ?_, ⟨?_, ?_⟩, ?_, ?_⟩, ?_, ?_⟩
  · rw [hG, hRf]
    calc ((s.reqs.filter (fun e => youngB now e.time)).length : Int)
        ≤ (s.reqs.length : Int) := by
          exact_mod_cast List.length_filter_le _ _
      _ ≤ s.RPM := hlen
  · intro p
    rw [hL p, hPf]
    calc (((lookupPR s.peerReqs p).filter (youngB now)).length : Int)
        ≤ ((lookupPR s.peerReqs p).length : Int) := by
          exact_mod_cast List.length_filter_le _ _
      _ ≤ s.PerPeerRPM := hplen p
  · rw [hOf]
    exact hnd
  · intro p
    rw [hL p, hG, hmir.1 p, subLog_filter_young]
  · intro p
    rw [hC p, hG, hmir.1 p, subLog_filter_young]
  · rw [hG]
    exact hpw.sublist (List.filter_sublist _)
  · rw [hD]
    exact pruneLog_pairwise now _ hdpw
  · intro e he
    rw [hG] at he
    exact hT.1 e (List.mem_of_mem_filter he)
  · intro t ht
    rw [hD] at ht
    exact hT.2 t (pruneLog_mem now _ t ht)

lemma subLog_append_self (reqs : List Entry) (p : PeerID) (t : Int) :
    subLog (reqs ++ [Entry.mk p t]) p = subLog reqs p ++ [t] := by
  unfold subLog
  rw [List.filter_append, List.map_append]
  simp

lemma subLog_append_ne (reqs : List Entry) (p q : PeerID) (t : Int) (h : q ≠ p) :
    subLog (reqs ++ [Entry.mk p t]) q = subLog reqs q := by
  unfold subLog
  rw [List.filter_append]
  have hb : ((Entry.mk p t).peerID == q) = false := by
    simp
    exact Ne.symm h
  simp [hb]

lemma accept_step (now : Int) (s : RL) (p : PeerID) (b : Int)
    (hI : InvRL s) (hT : timesLE s b) (hb : b ≤ now) :
    InvRL (Accept now s p).2 ∧ timesLE (Accept now s p).2 now := by
  obtain ⟨hIc, hTc⟩ := cleanup_preserves now s b hI hT
  have hTn : timesLE (cleanup now s) now :=
    ⟨fun e he => le_trans (hTc.1 e he) hb, fun t ht => le_trans (hTc.2 t ht) hb⟩
  obtain ⟨hlen, hplen, hnd, hmir, hpw, hdpw⟩ := hIc
  simp only [Accept]
  by_cases h1 : (cleanup now s).ongoingReqs.contains p = true
  · rw [if_pos h1]
    exact ⟨⟨hlen, hplen, hnd, hmir, hpw, hdpw⟩, hTn⟩
  · rw [if_neg h1]
    by_cases h2 : (cleanup now s).RPM ≤ ((cleanup now s).reqs.length : Int) ∨
        (cleanup now s).PerPeerRPM ≤ ((lookupPR (cleanup now s).peerReqs p).length : Int)
    · rw [if_pos h2]
      exact ⟨⟨hlen, hplen, hnd, hmir, hpw, hdpw⟩, hTn⟩
    · rw [if_neg h2]
      push_neg at h2
      obtain ⟨h2a, h2b⟩ := h2
      have hpnotmem : p ∉ (cleanup now s).ongoingReqs := by
        intro hmem
        exact h1 (by simpa using hmem)
      refine ⟨⟨?_, ?_, ?_, ⟨?_, ?_⟩, ?_, ?_⟩, ?_, ?_⟩
      · simp only [List.length_append, List.length_cons, List.length_nil]
        push_cast
        omega
      · intro q
        by_cases hqp : q = p
        · subst hqp
          rw [lookupPR_setPR_self]
          simp only [List.length_append, List.length_cons, List.length_nil]
          push_cast
          omega
        · rw [lookupPR_setPR_ne _ _ _ _ hqp]
          exact hplen q
      · exact List.nodup_cons.mpr ⟨hpnotmem, hnd⟩
      · intro q
        by_cases hqp : q = p
        · subst hqp
          rw [lookupPR_setPR_self, hmir.1 q, subLog_append_self]
        · rw [lookupPR_setPR_ne _ _ _ _ hqp, hmir.1 q, subLog_append_ne _ _ _ _ hqp]
      · intro q
        by_cases hqp : q = p
        · subst hqp
          rw [containsPR_setPR_self, subLog_append_self]
          simp
        · rw [containsPR_setPR_ne _ _ _ _ hqp, hmir.2 q, subLog_append_ne _ _ _ _ hqp]
      · rw [List.pairwise_append]
        refine ⟨hpw, List.pairwise_singleton _ _, ?_⟩
        intro a ha e2 he2
        simp only [List.mem_singleton] at he2
        subst he2
        exact hTn.1 a ha
      · exact hdpw
      · intro e he
        rcases List.mem_append.mp he with h | h
        · exact hTn.1 e h
        · simp only [List.mem_singleton] at h
          subst h
          exact le_refl now
      · exact hTn.2

lemma acceptDialData_step (now : Int) (s : RL) (p : PeerID) (b : Int)
    (hI : InvRL s) (hT : timesLE s b) (hb : b ≤ now) :
    InvRL (AcceptDialDataRequest now s p).2
      ∧ timesLE (AcceptDialDataRequest now s p).2 now := by
  obtain ⟨hIc, hTc⟩ := cleanup_preserves now s b hI hT
  have hTn : timesLE (cleanup now s) now :=
    ⟨fun e he => le_trans (hTc.1 e he) hb, fun t ht => le_trans (hTc.2 t ht) hb⟩
  obtain ⟨hlen, hplen, hnd, hmir, hpw, hdpw⟩ := hIc
  simp only [AcceptDialDataRequest]
  by_cases h1 : (cleanup now s).DialDataRPM ≤ ((cleanup now s).dialDataReqs.length : Int)
  · rw [if_pos h1]
    exact ⟨⟨hlen, hplen, hnd, hmir, hpw, hdpw⟩, hTn⟩
  · rw [if_neg h1]
    refine ⟨⟨hlen, hplen, hnd, hmir, hpw, ?_⟩, hTn.1, ?_⟩
    · rw [List.pairwise_append]
      refine ⟨hdpw, List.pairwise_singleton _ _, ?_⟩
      intro a ha t2 ht2
      simp only [List.mem_singleton] at ht2
      subst ht2
      exact hTn.2 a ha
    · intro t ht
      rcases List.mem_append.mp ht with h | h
      · exact hTn.2 t h
      · simp only [List.mem_singleton] at h
        subst h
        exact le_refl _

lemma complete_step (s : RL) (p : PeerID) (b : Int)
    (hI : InvRL s) (hT : timesLE s b) :
    InvRL (CompleteRequest s p) ∧ timesLE (CompleteRequest s p) b := by
  obtain ⟨hlen, hplen, hnd, hmir, hpw, hdpw⟩ := hI
  exact ⟨⟨hlen, hplen, hnd.filter _, hmir, hpw, hdpw⟩, hT⟩

lemma runRL_inv (ops : List RLOp) :
    ∀ (s : RL) (b : Int), InvRL s → timesLE s b →
    (b :: opTimes ops).Pairwise (fun a c => a ≤ c) →
    InvRL (runRL s ops) := by
  induction ops with
  | nil =>
    intro s b hI _ _
    exact hI
  | cons op rest ih =>
    intro s b hI hT hP
    cases op with
    | accept t p =>
      have hts : opTimes (RLOp.accept t p :: rest) = t :: opTimes rest := rfl
      rw [hts] at hP
      rw [List.pairwise_cons] at hP
      have hbt : b ≤ t := hP.1 t (List.mem_cons_self _ _)
      obtain ⟨hI2, hT2⟩ := accept_step t s p b hI hT hbt
      exact ih _ t hI2 hT2 hP.2
    | acceptDialData t p =>
      have hts : opTimes (RLOp.acceptDialData t p :: rest) = t :: opTimes rest := rfl
      rw [hts] at hP
      rw [List.pairwise_cons] at hP
      have hbt : b ≤ t := hP.1 t (List.mem_cons_self _ _)
      obtain ⟨hI2, hT2⟩ := acceptDialData_step t s p b hI hT hbt
      exact ih _ t hI2 hT2 hP.2
    | complete p =>
      obtain ⟨hI2, hT2⟩ := complete_step s p b hI hT
      exact ih _ b hI2 hT2 hP

/-- Claim C9: starting from the empty rate-limiter state with non-negative
quotas, after every sequence of Accept, AcceptDialDataRequest and
CompleteRequest calls whose wall-clock readings are non-decreasing, the
invariant holds: the global log length is at most RPM, every per-peer log
length is at most PerPeerRPM, the in-flight set holds at most one entry per
peer, the per-peer map mirrors the global log entry-for-entry (each admitted
unexpired request appears exactly once in each), and all logs are
non-decreasing in time. -/
theorem rateLimiter_invariants (rpm pprpm ddrpm : Int) (ops : List RLOp)
    (h1 : 0 ≤ rpm) (h2 : 0 ≤ pprpm)
    (hmono : (opTimes ops).Pairwise (fun a c => a ≤ c)) :
    InvRL (runRL (emptyRL rpm pprpm ddrpm) ops) := by
  have hI0 : InvRL (emptyRL rpm pprpm ddrpm) := by
    refine ⟨by simpa using h1, fun p => by simpa [lookupPR] using h2,
      List.nodup_nil, ⟨fun p => rfl, fun p => rfl⟩, List.Pairwise.nil, List.Pairwise.nil⟩
  have hT0 : ∀ c : Int, timesLE (emptyRL rpm pprpm ddrpm) c := by
    intro c
    exact ⟨fun e he => absurd he (List.not_mem_nil e), fun t ht => absurd ht (List.not_mem_nil t)⟩
  cases hts : opTimes ops with
  | nil =>
    refine runRL_inv ops _ 0 hI0 (hT0 0) ?_
    rw [hts]
    exact List.pairwise_singleton _ _
  | cons t ts =>
    refine runRL_inv ops _ t hI0 (hT0 t) ?_
    rw [hts] at hmono
    rw [hts, List.pairwise_cons]
    rw [List.pairwise_cons] at hmono
    refine ⟨?_, by rw [List.pairwise_cons]; exact hmono⟩
    intro x hx
    rcases List.mem_cons.mp hx with h | h
    · exact le_of_eq h.symm
    · exact hmono.1 x h

/-- Concrete run for the claim C9 witness: two peers, one completed request,
a repeat admission of peer 1, at non-decreasing times. -/
def c9Ops : List RLOp :=
  [RLOp.accept 0 1, RLOp.acceptDialData 0 1, RLOp.complete 1,
    RLOp.accept 5 2, RLOp.accept 5 1]

/-- Witness for claim C9 at the concrete run c9Ops with quotas 10, 2 and 4:
all hypotheses hold and the invariant holds in the final state. -/
theorem rateLimiter_invariants_witness :
    (0 : Int) ≤ 10 ∧ (0 : Int) ≤ 2 ∧
    (opTimes c9Ops).Pairwise (fun a c => a ≤ c) ∧
    InvRL (runRL (emptyRL 10 2 4) c9Ops) := by
  have hp : (opTimes c9Ops).Pairwise (fun a c => a ≤ c) := by decide
  exact ⟨by norm_num, by norm_num, hp,
    rateLimiter_invariants 10 2 4 c9Ops (by norm_num) (by norm_num) hp⟩

end Autonatv2
